import Mathlib

/-!
Verification of the IcePanel MCP server's filter-encoding and result-shaping
layer, shallowly embedded from the TypeScript source (`src/unnamed/part_000`,
`src/src/format.ts`, `src/src/types.ts`).
-/

namespace IcePanel

/-- A JavaScript runtime value that can appear as a filter-description entry in
`getModelObjects` / `getCatalogTechnologies` (src/unnamed/part_000): a scalar
string or boolean, an ordered array of strings, a label sub-map
(`Record<string, string>` as an ordered entry list), the explicit `null`, or
the `undefined` sentinel of an absent / unset property. -/
inductive FilterValue where
  | undef
  | null
  | str (s : String)
  | bool (b : Bool)
  | list (xs : List String)
  | labelsMap (entries : List (String × String))
  deriving DecidableEq, Repr

/-- JS `typeof value === "object"`: true for arrays, plain objects and `null`. -/
def FilterValue.typeofObject : FilterValue → Bool
  | .null => true
  | .list _ => true
  | .labelsMap _ => true
  | _ => false

/-- JS `String(value)` for the values reaching the scalar branch of the
encoders (`String(true) = "true"`, `String({..}) = "[object Object]"`,
`String([a,b]) = "a,b"`, `String(null) = "null"`). -/
def jsString : FilterValue → String
  | .undef => "undefined"
  | .null => "null"
  | .str s => s
  | .bool b => if b then "true" else "false"
  | .list xs => String.intercalate "," xs
  | .labelsMap _ => "[object Object]"

/-- One iteration of the `Object.entries(filter).forEach` body of
`getModelObjects` (src/unnamed/part_000 lines 1162-1182).  JS semantics
reflected here: `typeof` of an array, an object and `null` is `"object"`, so
the `key === 'labels' && typeof value === 'object'` branch also captures an
array or `null` stored under `labels`; `Object.entries` of an array yields
index/element pairs and `Object.entries(null)` throws a `TypeError`, which is
modelled as `Except.error`. -/
def encodeModelObjectsEntry (key : String) (v : FilterValue) :
    Except String (List (String × String)) :=
  if v = .undef then .ok []
  else if key == "labels" && v.typeofObject then
    match v with
    | .labelsMap es => .ok (es.map fun e => ("filter[labels][" ++ e.1 ++ "]", e.2))
    | .list xs =>
        .ok (((List.range xs.length).zip xs).map
          fun p => ("filter[labels][" ++ toString p.1 ++ "]", p.2))
    | _ => .error "TypeError: Cannot convert undefined or null to object"
  else
    match v with
    | .list xs => .ok (xs.map fun x => ("filter[" ++ key ++ "][]", x))
    | .null => .ok [("filter[" ++ key ++ "]", "null")]
    | v => .ok [("filter[" ++ key ++ "]", jsString v)]

/-- The query pairs of `getModelObjects` (src/unnamed/part_000 lines 1156-1183):
the JS loop appends pairs into `URLSearchParams` entry by entry, in
`Object.entries` order, and a thrown `TypeError` aborts the whole request, so
the observable outcome is either the complete pair sequence or the error. -/
def encodeModelObjectsFilter :
    List (String × FilterValue) → Except String (List (String × String))
  | [] => .ok []
  | p :: rest => do
      let ps ← encodeModelObjectsEntry p.1 p.2
      let qs ← encodeModelObjectsFilter rest
      pure (ps ++ qs)

/-- One iteration of the `Object.entries(filter).forEach` body of
`getCatalogTechnologies` / `getOrganizationTechnologies` (src/unnamed/part_000
lines 1018-1040): same as the model-objects encoder but with no special branch
for a `labels` key, and no throwing case. -/
def encodeCatalogEntry (key : String) (v : FilterValue) : List (String × String) :=
  if v = .undef then []
  else
    match v with
    | .list xs => xs.map fun x => ("filter[" ++ key ++ "][]", x)
    | .null => [("filter[" ++ key ++ "]", "null")]
    | v => [("filter[" ++ key ++ "]", jsString v)]

/-- The query pairs of `getCatalogTechnologies` (src/unnamed/part_000 lines
1018-1042). -/
def encodeCatalogFilter (fd : List (String × FilterValue)) : List (String × String) :=
  fd.flatMap fun p => encodeCatalogEntry p.1 p.2

/-- The pair list `encodeModelObjectsEntry` produces when it does not throw
(the throwing case, `labels` mapped to `null`, yields `[]` here and is excluded
from every use by `entryNoThrow`). -/
def entryPairs (key : String) (v : FilterValue) : List (String × String) :=
  if v = .undef then []
  else if key == "labels" && v.typeofObject then
    match v with
    | .labelsMap es => es.map fun e => ("filter[labels][" ++ e.1 ++ "]", e.2)
    | .list xs =>
        ((List.range xs.length).zip xs).map
          fun p => ("filter[labels][" ++ toString p.1 ++ "]", p.2)
    | _ => []
  else
    match v with
    | .list xs => xs.map fun x => ("filter[" ++ key ++ "][]", x)
    | .null => [("filter[" ++ key ++ "]", "null")]
    | v => [("filter[" ++ key ++ "]", jsString v)]

/-- The only input on which the model-objects encoder throws is an explicit
`null` stored under the `labels` key. -/
def entryNoThrow (p : String × FilterValue) : Prop :=
  ¬(p.1 = "labels" ∧ p.2 = FilterValue.null)

/-- A plain identifier string: every character alphanumeric (in particular no
`[` or `]`).  All actual filter keys of the tools (`domainId`, `external`,
`type`, ...) are of this shape. -/
def plainStr (s : String) : Bool := s.data.all (·.isAlphanum)

/-- Well-typedness of one filter entry, following the TypeScript filter type of
`getModelObjects` (src/unnamed/part_000 lines 1145-1154): keys are plain
identifiers, `labels` (`labels?: Record<string, string>`) only carries a
sub-map with plain sub-keys or is unset, and no other key carries a sub-map. -/
def wfEntry : String × FilterValue → Bool
  | (k, v) =>
    plainStr k &&
      match v with
      | .labelsMap es => k == "labels" && es.all fun e => plainStr e.1
      | .undef => true
      | _ => k != "labels"

/-- Well-typedness of a filter description: JS object keys are distinct, each
entry well-typed. -/
def wfFilter (fd : List (String × FilterValue)) : Prop :=
  (fd.map Prod.fst).Nodup ∧ ∀ p ∈ fd, wfEntry p = true

/-- Well-typedness of one catalog-filter entry, following the TypeScript filter
type of `getCatalogTechnologies` (src/unnamed/part_000 lines 1009-1016): plain
keys, values only scalars, arrays or `null` (no `labels` sub-map exists in this
filter type). -/
def wfCatalogEntry : String × FilterValue → Bool
  | (k, v) =>
    plainStr k &&
      match v with
      | .labelsMap _ => false
      | _ => true

/-- Well-typedness of a catalog filter description. -/
def wfCatalogFilter (fd : List (String × FilterValue)) : Prop :=
  (fd.map Prod.fst).Nodup ∧ ∀ p ∈ fd, wfCatalogEntry p = true

/-- A scalar filter value (string or boolean) or the unset sentinel. -/
def scalarOrUnset : FilterValue → Bool
  | .str _ => true
  | .bool _ => true
  | .undef => true
  | _ => false

/-- The client-side search step shared by the list tools (`getModelObjects`,
src/unnamed/part_000 lines 117-123; `getTechnologyCatalog` lines 246-252;
`getTeams` lines 283-289): `if (search) {...}` — in JS an absent argument
(`undefined`) and the empty string are both falsy, so the Fuse re-ranking runs
only for a present, non-empty query.  Fuse.js scoring is an external library,
passed in as the function `fuse`. -/
def shapeSearchResults {α : Type} (fuse : String → List α → List α)
    (search : Option String) (xs : List α) : List α :=
  match search with
  | none => xs
  | some s => if s = "" then xs else fuse s xs

/-- One remote API call, identified by endpoint and arguments. -/
inductive RemoteCall where
  | getModelObject (landscapeId modelObjectId : String)
  | getTeams (organizationId : String)
  | getModelObjects (landscapeId : String)
  deriving DecidableEq, Repr

/-- The remote calls the `getModelObject` tool handler issues, in source order
(src/unnamed/part_000 lines 151-164): `icepanel.getModelObject` (line 153),
then `icepanel.getTeams` (line 154), then — only when hierarchical enrichment
is requested — `icepanel.getModelObjects` (line 160). -/
def getModelObjectToolCalls (landscapeId modelObjectId organizationId : String)
    (includeHierarchicalInfo : Bool) : List RemoteCall :=
  [RemoteCall.getModelObject landscapeId modelObjectId,
   RemoteCall.getTeams organizationId] ++
    (if includeHierarchicalInfo then [RemoteCall.getModelObjects landscapeId]
     else [])

/-- The fields of a remote model-object record that the connection formatting
reads (src/src/types.ts; all four are required strings there, and the render
code only checks their truthiness, i.e. non-emptiness). -/
structure ModelObject where
  id : String
  name : String
  type : String
  status : String
  deriving DecidableEq, Repr

/-- The fields of a remote model-connection record that the connection
formatting reads (src/src/types.ts). -/
structure ModelConnection where
  id : String
  name : String
  originId : String
  targetId : String
  deriving DecidableEq, Repr

/-- `modelObjects.find(o => o.id === c.originId)` / `targetId` lookups in
`formatConnections` (src/src/format.ts lines 224, 237). -/
def findObj (objs : List ModelObject) (oid : String) : Option ModelObject :=
  objs.find? fun o => o.id == oid

/-- `formatModelObjectRelatedItem` (src/src/format.ts lines 61-85); each field
is appended only when truthy, which for a string means non-empty. -/
def formatModelObjectRelatedItem (m : ModelObject) : String :=
  (if m.name = "" then "" else "##### " ++ m.name ++ "\n") ++
    (if m.id = "" then "" else "- ID: " ++ m.id ++ "\n") ++
    (if m.name = "" then "" else "- Name: " ++ m.name ++ "\n") ++
    (if m.type = "" then "" else "- Type: " ++ m.type ++ "\n") ++
    (if m.status = "" then "" else "- Status: " ++ m.status ++ "\n")

/-- `formatConnections` (src/src/format.ts lines 211-252), embedded exactly as
written — including that the outgoing-connections section (source lines
234-245) maps over `incomingConnections`, resolving each `c.targetId`, and
that the referenced-models accumulation mirrors the `push` calls performed
inside those two `map`s. -/
def formatConnections (modelObject : ModelObject)
    (incomingConnections outgoingConnections : List ModelConnection)
    (modelObjects : List ModelObject) : String :=
  let s0 := "# " ++ modelObject.name ++ " - Connections\n\n"
  let s1 :=
    if incomingConnections.isEmpty && outgoingConnections.isEmpty then
      s0 ++ "No connections found.\n"
    else s0
  let incomingLines := incomingConnections.map fun c =>
    match findObj modelObjects c.originId with
    | none => ""
    | some m =>
        m.name ++ " (" ++ m.type ++ ") -[" ++ c.name ++ "]-> " ++
          modelObject.name ++ " (" ++ modelObject.type ++ ")"
  let s2 :=
    if incomingConnections.isEmpty then s1
    else s1 ++ "### Incoming connections\n" ++
      String.intercalate "\n" incomingLines
  let outgoingLines := incomingConnections.map fun c =>
    match findObj modelObjects c.targetId with
    | none => ""
    | some m =>
        modelObject.name ++ " (" ++ modelObject.type ++ ") -[" ++ c.name ++
          "]-> " ++ m.name ++ " (" ++ m.type ++ ")"
  let s3 :=
    if outgoingConnections.isEmpty then s2
    else s2 ++ "### Outgoing connections\n" ++
      String.intercalate "\n" outgoingLines
  let referencedModels :=
    (if incomingConnections.isEmpty then []
     else incomingConnections.filterMap fun c => findObj modelObjects c.originId) ++
      (if outgoingConnections.isEmpty then []
       else incomingConnections.filterMap fun c => findObj modelObjects c.targetId)
  if referencedModels.isEmpty then s3
  else s3 ++ "### Referenced Model Objects" ++
    String.intercalate "\n" (referencedModels.map formatModelObjectRelatedItem)

/-- An HTTP response as the `fetch` call in `apiRequest` observes it. -/
structure HttpResponse where
  status : Nat
  statusText : String
  body : String
  deriving DecidableEq, Repr

/-- `Response.ok` of the Fetch standard: status in the inclusive range
200-299. -/
def responseOk (r : HttpResponse) : Bool := 200 ≤ r.status && r.status ≤ 299

/-- The message of the error `apiRequest` throws on a non-ok response
(src/unnamed/part_000 line 892). -/
def icePanelErrorMessage (r : HttpResponse) : String :=
  "IcePanel API error: " ++ toString r.status ++ " " ++ r.statusText ++ " - " ++
    r.body

/-- `apiRequest`'s handling of the HTTP response (src/unnamed/part_000 lines
884-896): when `response.ok`, parse the body as JSON (`response.json()`,
modelled by the parameter `parse`, since JSON parsing belongs to the runtime);
on any other status throw an error carrying status, status text and the raw
body text — the body is consumed by `response.text()` only, never parsed. -/
def apiRequestResult {α : Type} (parse : String → α) (r : HttpResponse) :
    Except String α :=
  if responseOk r then .ok (parse r.body) else .error (icePanelErrorMessage r)

/-- One text block of a tool result. -/
structure ContentBlock where
  type : String
  text : String
  deriving DecidableEq, Repr

/-- The `catch` conversion every tool handler performs (e.g.
src/unnamed/part_000 lines 131-135): a thrown error becomes one `text` block
reading `Error: <message>`. -/
def errorContent (msg : String) : List ContentBlock :=
  [{ type := "text", text := "Error: " ++ msg }]

/-- The try/catch boundary shared by every tool handler: a successful body
yields its content, a failure is converted to data by `errorContent`; the
handler itself is total, nothing propagates past it. -/
def runToolHandler (body : Except String (List ContentBlock)) :
    List ContentBlock :=
  match body with
  | .ok content => content
  | .error e => errorContent e

/-- The `getLandscapes` tool handler (src/unnamed/part_000 lines 40-51) as a
function of the outcome of its one transport call; the success rendering
(`JSON.stringify` of the payload) is abstracted as the payload string. -/
def getLandscapesHandler (outcome : Except String String) : List ContentBlock :=
  runToolHandler (outcome.map fun payload => [{ type := "text", text := payload }])

/-- The `getModelObjects` tool handler (src/unnamed/part_000 lines 113-136) as
a function of the outcome of its transport call: on success, fuzzy-shape the
collection and render one text block per object; on failure, the error text
block. -/
def getModelObjectsToolHandler
    (fuse : String → List ModelObject → List ModelObject)
    (search : Option String) (render : ModelObject → String)
    (outcome : Except String (List ModelObject)) : List ContentBlock :=
  runToolHandler (outcome.map fun objs =>
    (shapeSearchResults fuse search objs).map fun o =>
      { type := "text", text := render o })

/-- The `getModelObjectRelationships` tool handler (src/unnamed/part_000 lines
192-224) as a function of the outcomes of its four transport calls, in source
order: the object, the full collection, the outgoing connections, the incoming
connections. -/
def getModelObjectRelationshipsHandler
    (objectOutcome : Except String ModelObject)
    (objectsOutcome : Except String (List ModelObject))
    (outgoingOutcome incomingOutcome : Except String (List ModelConnection)) :
    List ContentBlock :=
  runToolHandler (do
    let obj ← objectOutcome
    let objs ← objectsOutcome
    let outgoing ← outgoingOutcome
    let incoming ← incomingOutcome
    pure [{ type := "text",
            text := formatConnections obj incoming outgoing objs }])

/-- `Array.from(new Set(xs))`: a JS `Set` iterates in insertion order and keeps
the first occurrence of each element. -/
def jsSetOrder (xs : List String) : List String :=
  xs.foldl (fun acc x => if x ∈ acc then acc else acc ++ [x]) []

/-- The id list the `addObjectsToDiagram` tool handler sends in its update
(src/unnamed/part_000 line 813):
`Array.from(new Set([...currentObjectIds, ...objectIds]))`. -/
def addObjectsToDiagramMergedIds (currentObjectIds objectIds : List String) :
    List String :=
  jsSetOrder (currentObjectIds ++ objectIds)

/-- First-seen de-duplication of the elements of a list that are not already in
`seen`. -/
def dedupFirstExcluding (seen : List String) : List String → List String
  | [] => []
  | x :: xs =>
      if x ∈ seen then dedupFirstExcluding seen xs
      else x :: dedupFirstExcluding (seen ++ [x]) xs

/-- First-seen de-duplication of a list. -/
def dedupFirst (xs : List String) : List String := dedupFirstExcluding [] xs

/-- The merged id list as the spec describes it (spec §9 design note): a pure
ordered set union — every existing id first, in original order, then each new
id not already present, in supplied order, duplicates removed keeping the
first occurrence. -/
def specMergedObjectIds (currentObjectIds objectIds : List String) :
    List String :=
  dedupFirst currentObjectIds ++
    dedupFirst (objectIds.filter fun x => !decide (x ∈ currentObjectIds))

/-- A `string | string[]` union argument of the `getModelObjects` tool
schema. -/
inductive StrOrArr where
  | one (s : String)
  | arr (xs : List String)
  deriving DecidableEq, Repr

/-- The validated arguments of the `getModelObjects` tool other than
`landscapeId` (zod schema, src/unnamed/part_000 lines 95-112): every optional
argument may be absent, `external` defaults to `false`, and `parentId` may
additionally be an explicit `null` (`some none`). -/
structure GetModelObjectsArgs where
  domainId : Option StrOrArr
  external : Bool
  name : Option String
  parentId : Option (Option String)
  status : Option StrOrArr
  type : Option StrOrArr
  technologyId : Option StrOrArr
  teamId : Option StrOrArr
  search : Option String

/-- The filter value a `string | string[]` argument contributes. -/
def StrOrArr.toFilterValue : Option StrOrArr → FilterValue
  | none => .undef
  | some (.one s) => .str s
  | some (.arr xs) => .list xs

/-- The filter value an optional string argument contributes. -/
def optStrFilterValue : Option String → FilterValue
  | none => .undef
  | some s => .str s

/-- The filter value the nullable optional `parentId` argument contributes. -/
def parentIdFilterValue : Option (Option String) → FilterValue
  | none => .undef
  | some none => .null
  | some (some s) => .str s

/-- The rest-spread `filters` object the `getModelObjects` tool handler passes
to the encoder as `{ filter: filters }` (src/unnamed/part_000 lines 113-115):
every schema property except the destructured `landscapeId`, in schema
declaration order — including `search`.  An absent optional property is
modelled as `.undef`, which the encoder's `value !== undefined` guard skips
exactly like a missing JS property. -/
def getModelObjectsToolFilter (a : GetModelObjectsArgs) :
    List (String × FilterValue) :=
  [("domainId", StrOrArr.toFilterValue a.domainId),
   ("external", FilterValue.bool a.external),
   ("name", optStrFilterValue a.name),
   ("parentId", parentIdFilterValue a.parentId),
   ("status", StrOrArr.toFilterValue a.status),
   ("type", StrOrArr.toFilterValue a.type),
   ("technologyId", StrOrArr.toFilterValue a.technologyId),
   ("teamId", StrOrArr.toFilterValue a.teamId),
   ("search", optStrFilterValue a.search)]

theorem encodeModelObjectsEntry_ok (key : String) (v : FilterValue)
    (h : entryNoThrow (key, v)) :
    encodeModelObjectsEntry key v = .ok (entryPairs key v) := by
  rcases v with _ | _ | s | b | xs | es <;>
    simp [encodeModelObjectsEntry, entryPairs, FilterValue.typeofObject] <;>
    split <;> simp_all [entryNoThrow]

theorem encodeModelObjectsFilter_eq (fd : List (String × FilterValue))
    (h : ∀ p ∈ fd, entryNoThrow p) :
    encodeModelObjectsFilter fd = .ok (fd.flatMap fun p => entryPairs p.1 p.2) := by
  induction fd with
  | nil => rfl
  | cons p rest ih =>
      have hp := encodeModelObjectsEntry_ok p.1 p.2 (h p (by simp))
      have hr := ih (fun q hq => h q (by simp [hq]))
      simp [encodeModelObjectsFilter, hp, hr, List.flatMap_cons]
      rfl

theorem plainStr_not_mem_lbrack {s : String} (h : plainStr s = true) :
    '[' ∉ s.data := by
  intro hmem
  have := (List.all_eq_true.mp h) _ hmem
  simp at this

theorem plainStr_not_mem_rbrack {s : String} (h : plainStr s = true) :
    ']' ∉ s.data := by
  intro hmem
  have := (List.all_eq_true.mp h) _ hmem
  simp at this

theorem plainStr_count_lbrack {s : String} (h : plainStr s = true) :
    s.data.count '[' = 0 :=
  List.count_eq_zero.mpr (plainStr_not_mem_lbrack h)

/-- Count of `[` distinguishes a scalar-shaped key from a list-shaped key. -/
theorem scalar_key_ne_list_key {a b : String} (ha : plainStr a = true)
    (hb : plainStr b = true) :
    "filter[" ++ a ++ "]" ≠ "filter[" ++ b ++ "][]" := by
  intro h
  have hd := congrArg (fun s => s.data.count '[') h
  simp only [String.data_append, List.count_append] at hd
  rw [plainStr_count_lbrack ha, plainStr_count_lbrack hb] at hd
  revert hd
  decide

/-- Count of `[` distinguishes a scalar-shaped key from a labels-shaped key. -/
theorem scalar_key_ne_labels_key {a sub : String} (ha : plainStr a = true)
    (hsub : plainStr sub = true) :
    "filter[" ++ a ++ "]" ≠ "filter[labels][" ++ sub ++ "]" := by
  intro h
  have hd := congrArg (fun s => s.data.count '[') h
  simp only [String.data_append, List.count_append] at hd
  rw [plainStr_count_lbrack ha, plainStr_count_lbrack hsub] at hd
  revert hd
  decide

theorem scalar_key_inj {a b : String}
    (h : "filter[" ++ a ++ "]" = "filter[" ++ b ++ "]") : a = b := by
  have hd := congrArg String.data h
  simp only [String.data_append, List.append_assoc] at hd
  exact String.ext (List.append_cancel_right (List.append_cancel_left hd))

theorem list_key_inj {a b : String}
    (h : "filter[" ++ a ++ "][]" = "filter[" ++ b ++ "][]") : a = b := by
  have hd := congrArg String.data h
  simp only [String.data_append, List.append_assoc] at hd
  exact String.ext (List.append_cancel_right (List.append_cancel_left hd))

/-- List-level core of `labels_key_ne_list_key`, proved by reversing both
sides: the `labels][` prefix forces the other key to be `labels` itself (when
the sub-key is empty) or forces a `[` into the sub-key. -/
theorem labels_list_core (sub k : List Char) (hsub : '[' ∉ sub)
    (hk : k ≠ ['l', 'a', 'b', 'e', 'l', 's']) :
    ['l', 'a', 'b', 'e', 'l', 's', ']', '['] ++ sub ++ [']'] ≠
      k ++ [']', '[', ']'] := by
  intro h
  have h1 := congrArg List.reverse h
  rw [List.reverse_append, List.reverse_append, List.reverse_append] at h1
  have e0 : (([']'] : List Char)).reverse = [']'] := by decide
  have e1 : (['l', 'a', 'b', 'e', 'l', 's', ']', '['] : List Char).reverse =
      ['[', ']', 's', 'l', 'e', 'b', 'a', 'l'] := by decide
  have e2 : (([']', '[', ']'] : List Char)).reverse = [']', '[', ']'] := by decide
  rw [e0, e1, e2] at h1
  simp only [List.singleton_append, List.cons_append, List.append_assoc,
    List.nil_append, List.cons.injEq, true_and] at h1
  rcases hs : sub.reverse with _ | ⟨c, cs⟩
  · rw [hs] at h1
    simp only [List.nil_append, List.cons.injEq, true_and] at h1
    have hkrev : k.reverse = ['s', 'l', 'e', 'b', 'a', 'l'] := by
      simpa using h1.symm
    have : k = ['l', 'a', 'b', 'e', 'l', 's'] := by
      have := congrArg List.reverse hkrev
      simpa using this
    exact hk this
  · rw [hs] at h1
    simp only [List.cons_append, List.cons.injEq] at h1
    have hc : c ∈ sub := by
      have : c ∈ sub.reverse := by rw [hs]; exact List.mem_cons_self ..
      simpa using this
    exact hsub (h1.1 ▸ hc)

/-- A labels-shaped key with a plain sub-key never equals the list-shaped key
of a non-`labels` key. -/
theorem labels_key_ne_list_key {sub k : String} (hsub : plainStr sub = true)
    (hk : k ≠ "labels") :
    "filter[labels][" ++ sub ++ "]" ≠ "filter[" ++ k ++ "][]" := by
  intro h
  have hd := congrArg String.data h
  simp only [String.data_append, List.append_assoc] at hd
  have hsplit : (['f', 'i', 'l', 't', 'e', 'r', '[', 'l', 'a', 'b', 'e', 'l',
      's', ']', '['] : List Char) =
      ['f', 'i', 'l', 't', 'e', 'r', '['] ++
        ['l', 'a', 'b', 'e', 'l', 's', ']', '['] := by decide
  rw [hsplit, List.append_assoc] at hd
  have hcore := List.append_cancel_left hd
  refine labels_list_core sub.data k.data (plainStr_not_mem_lbrack hsub) ?_
      (by simpa [List.append_assoc] using hcore)
  intro hkd
  exact hk (String.ext (by simpa using hkd))

theorem filter_flatMap_comm {α β : Type} (l : List α) (g : α → List β)
    (q : β → Bool) :
    (l.flatMap g).filter q = l.flatMap fun a => (g a).filter q := by
  induction l with
  | nil => rfl
  | cons a l ih => simp [List.flatMap_cons, List.filter_append, ih]

/-- The single entry `(k, list xs)` contributes exactly the pairs
`filter[k][] = x`, one per element, in order. -/
theorem entryPairs_filter_list_self (k : String) (xs : List String)
    (hk : k ≠ "labels") :
    (entryPairs k (.list xs)).filter
        (fun p => p.1 == "filter[" ++ k ++ "][]") =
      xs.map fun x => ("filter[" ++ k ++ "][]", x) := by
  have hbeq : (k == "labels") = false := by
    simpa using hk
  simp [entryPairs, hbeq, List.filter_map, Function.comp_def]

/-- An entry under a different key contributes no pair with key
`filter[k][]`. -/
theorem entryPairs_filter_list_ne (k' : String) (v : FilterValue) (k : String)
    (hwf : wfEntry (k', v) = true) (hk : plainStr k = true)
    (hkl : k ≠ "labels") (hne : k' ≠ k) :
    (entryPairs k' v).filter (fun p => p.1 == "filter[" ++ k ++ "][]") = [] := by
  rcases v with _ | _ | s | b | ys | es
  · simp [entryPairs]
  · simp only [wfEntry, Bool.and_eq_true, bne_iff_ne, ne_eq] at hwf
    have hlab : (k' == "labels") = false := by simpa using hwf.2
    simp only [entryPairs, FilterValue.typeofObject, hlab, Bool.false_and,
      if_neg (by simp : ¬(FilterValue.null = FilterValue.undef)), if_false]
    simp [scalar_key_ne_list_key hwf.1 hk]
  · simp only [wfEntry, Bool.and_eq_true] at hwf
    simp [entryPairs, FilterValue.typeofObject,
      scalar_key_ne_list_key hwf.1 hk, jsString]
  · simp only [wfEntry, Bool.and_eq_true] at hwf
    simp [entryPairs, FilterValue.typeofObject,
      scalar_key_ne_list_key hwf.1 hk, jsString]
  · simp only [wfEntry, Bool.and_eq_true, bne_iff_ne, ne_eq] at hwf
    have hlab : (k' == "labels") = false := by simpa using hwf.2
    have hkey : ∀ x : String, ("filter[" ++ k' ++ "][]" == "filter[" ++ k ++ "][]") = false := by
      intro x
      simpa using fun hcontra => hne (list_key_inj hcontra)
    simp [entryPairs, hlab, List.filter_map, Function.comp_def, hkey ""]
  · simp only [wfEntry, Bool.and_eq_true, beq_iff_eq, List.all_eq_true] at hwf
    rcases hwf with ⟨hplain', hlab, hsubs⟩
    simp only [entryPairs, FilterValue.typeofObject, hlab,
      if_neg (by simp : ¬(FilterValue.labelsMap es = FilterValue.undef))]
    simp only [beq_self_eq_true, Bool.true_and, if_true, List.filter_map,
      Function.comp_def]
    have : ∀ e ∈ es, (("filter[labels][" ++ e.1 ++ "]" ==
        "filter[" ++ k ++ "][]") = false) := by
      intro e he
      simpa using labels_key_ne_list_key (hsubs e he) hkl
    rw [List.filter_eq_nil_iff.mpr ?_]
    · simp
    · intro e he
      simpa using this e he

theorem wfEntry_list_facts {k : String} {xs : List String}
    (h : wfEntry (k, FilterValue.list xs) = true) :
    plainStr k = true ∧ k ≠ "labels" := by
  simpa [wfEntry, Bool.and_eq_true] using h

theorem entryPairs_rest_filter_nil (rest : List (String × FilterValue))
    (k : String)
    (hfd : ∀ p ∈ rest, wfEntry p = true)
    (hplain : plainStr k = true) (hklab : k ≠ "labels")
    (hknotin : k ∉ rest.map Prod.fst) :
    (rest.flatMap fun p => entryPairs p.1 p.2).filter
        (fun p => p.1 == "filter[" ++ k ++ "][]") = [] := by
  rw [filter_flatMap_comm]
  apply List.flatMap_eq_nil_iff.mpr
  intro q hq
  have hqne : q.1 ≠ k := by
    intro hq1
    exact hknotin (hq1 ▸ List.mem_map_of_mem Prod.fst hq)
  exact entryPairs_filter_list_ne q.1 q.2 k (hfd q hq) hplain hklab hqne

theorem flatMap_entryPairs_filter_list (fd : List (String × FilterValue))
    (k : String) (xs : List String)
    (hfd : ∀ p ∈ fd, wfEntry p = true)
    (hnd : (fd.map Prod.fst).Nodup)
    (hmem : (k, FilterValue.list xs) ∈ fd) :
    (fd.flatMap fun p => entryPairs p.1 p.2).filter
        (fun p => p.1 == "filter[" ++ k ++ "][]") =
      xs.map fun x => ("filter[" ++ k ++ "][]", x) := by
  obtain ⟨hplain, hklab⟩ := wfEntry_list_facts (hfd _ hmem)
  induction fd with
  | nil => simp at hmem
  | cons p rest ih =>
      obtain ⟨pk, pv⟩ := p
      rw [List.flatMap_cons, List.filter_append]
      have hnd' : (pk :: rest.map Prod.fst).Nodup := by simpa using hnd
      rcases List.mem_cons.mp hmem with heq | hrest
      · injection heq with hk1 hk2
        subst hk1
        subst hk2
        rw [entryPairs_filter_list_self k xs hklab,
          entryPairs_rest_filter_nil rest k
            (fun q hq => hfd q (List.mem_cons_of_mem _ hq)) hplain hklab
            (List.nodup_cons.mp hnd').1,
          List.append_nil]
      · have hpne : pk ≠ k := by
          intro hp1
          exact (List.nodup_cons.mp hnd').1
            (hp1 ▸ List.mem_map_of_mem Prod.fst hrest)
        rw [entryPairs_filter_list_ne pk pv k (hfd _ (List.mem_cons_self ..))
          hplain hklab hpne, List.nil_append]
        exact ih (fun q hq => hfd q (List.mem_cons_of_mem _ hq))
          (List.nodup_cons.mp hnd').2 hrest

theorem catalogEntry_filter_list_self (k : String) (xs : List String) :
    (encodeCatalogEntry k (.list xs)).filter
        (fun p => p.1 == "filter[" ++ k ++ "][]") =
      xs.map fun x => ("filter[" ++ k ++ "][]", x) := by
  simp [encodeCatalogEntry, List.filter_map, Function.comp_def]

theorem catalogEntry_filter_list_ne (k' : String) (v : FilterValue) (k : String)
    (hwf : wfCatalogEntry (k', v) = true) (hk : plainStr k = true)
    (hne : k' ≠ k) :
    (encodeCatalogEntry k' v).filter
        (fun p => p.1 == "filter[" ++ k ++ "][]") = [] := by
  have hplain' : plainStr k' = true := by
    have h2 := hwf
    simp only [wfCatalogEntry, Bool.and_eq_true] at h2
    exact h2.1
  rcases v with _ | _ | s | b | ys | es
  · simp [encodeCatalogEntry]
  · simp [encodeCatalogEntry, scalar_key_ne_list_key hplain' hk]
  · simp [encodeCatalogEntry, jsString, scalar_key_ne_list_key hplain' hk]
  · simp [encodeCatalogEntry, jsString, scalar_key_ne_list_key hplain' hk]
  · have hkey : ("filter[" ++ k' ++ "][]" == "filter[" ++ k ++ "][]") = false := by
      simpa using fun hcontra => hne (list_key_inj hcontra)
    simp [encodeCatalogEntry, List.filter_map, Function.comp_def, hkey]
  · simp [wfCatalogEntry] at hwf

theorem catalog_flatMap_filter_list (fd : List (String × FilterValue))
    (k : String) (xs : List String)
    (hfd : ∀ p ∈ fd, wfCatalogEntry p = true)
    (hnd : (fd.map Prod.fst).Nodup)
    (hmem : (k, FilterValue.list xs) ∈ fd) :
    (encodeCatalogFilter fd).filter
        (fun p => p.1 == "filter[" ++ k ++ "][]") =
      xs.map fun x => ("filter[" ++ k ++ "][]", x) := by
  have hplain : plainStr k = true := by
    simpa [wfCatalogEntry, Bool.and_eq_true] using hfd _ hmem
  rw [encodeCatalogFilter]
  induction fd with
  | nil => simp at hmem
  | cons p rest ih =>
      obtain ⟨pk, pv⟩ := p
      rw [List.flatMap_cons, List.filter_append]
      have hnd' : (pk :: rest.map Prod.fst).Nodup := by simpa using hnd
      rcases List.mem_cons.mp hmem with heq | hrest
      · injection heq with hk1 hk2
        subst hk1
        subst hk2
        rw [catalogEntry_filter_list_self k xs]
        have hnil : (rest.flatMap fun q => encodeCatalogEntry q.1 q.2).filter
            (fun p => p.1 == "filter[" ++ k ++ "][]") = [] := by
          rw [filter_flatMap_comm]
          apply List.flatMap_eq_nil_iff.mpr
          intro q hq
          have hqne : q.1 ≠ k := by
            intro hq1
            exact (List.nodup_cons.mp hnd').1
              (hq1 ▸ List.mem_map_of_mem Prod.fst hq)
          exact catalogEntry_filter_list_ne q.1 q.2 k
            (hfd q (List.mem_cons_of_mem _ hq)) hplain hqne
        rw [hnil, List.append_nil]
      · have hpne : pk ≠ k := by
          intro hp1
          exact (List.nodup_cons.mp hnd').1
            (hp1 ▸ List.mem_map_of_mem Prod.fst hrest)
        rw [catalogEntry_filter_list_ne pk pv k (hfd _ (List.mem_cons_self ..))
          hplain hpne, List.nil_append]
        exact ih (fun q hq => hfd q (List.mem_cons_of_mem _ hq))
          (List.nodup_cons.mp hnd').2 hrest

theorem wfEntry_noThrow (p : String × FilterValue) (h : wfEntry p = true) :
    entryNoThrow p := by
  obtain ⟨k, v⟩ := p
  rcases v with _ | _ | s | b | ys | es <;>
    simp_all [wfEntry, entryNoThrow, Bool.and_eq_true]

theorem wfFilter_encode_ok (fd : List (String × FilterValue))
    (h : ∀ p ∈ fd, wfEntry p = true) :
    encodeModelObjectsFilter fd =
      .ok (fd.flatMap fun p => entryPairs p.1 p.2) :=
  encodeModelObjectsFilter_eq fd fun p hp => wfEntry_noThrow p (h p hp)

/-- C1: for every well-typed filter description containing a list value under
key `k`, both copies of the Filter Encoder (`getModelObjects` and
`getCatalogTechnologies`) emit exactly one query pair per list element, with
key `filter[k][]` and the element itself as value, in list order. -/
theorem filter_encoder_list_values
    (fd fdc : List (String × FilterValue)) (k : String) (xs : List String)
    (hwf : wfFilter fd) (hmem : (k, FilterValue.list xs) ∈ fd)
    (hwfc : wfCatalogFilter fdc) (hmemc : (k, FilterValue.list xs) ∈ fdc) :
    (∃ out, encodeModelObjectsFilter fd = .ok out ∧
        out.filter (fun p => p.1 == "filter[" ++ k ++ "][]") =
          xs.map fun x => ("filter[" ++ k ++ "][]", x)) ∧
      (encodeCatalogFilter fdc).filter
          (fun p => p.1 == "filter[" ++ k ++ "][]") =
        xs.map fun x => ("filter[" ++ k ++ "][]", x) := by
  refine ⟨⟨_, wfFilter_encode_ok fd hwf.2, ?_⟩, ?_⟩
  · exact flatMap_entryPairs_filter_list fd k xs hwf.2 hwf.1 hmem
  · exact catalog_flatMap_filter_list fdc k xs hwfc.2 hwfc.1 hmemc

theorem filter_encoder_list_values_witness :
    (∃ out, encodeModelObjectsFilter
        [("type", FilterValue.list ["system", "actor"]),
         ("external", FilterValue.bool false)] = .ok out ∧
        out.filter (fun p => p.1 == "filter[" ++ "type" ++ "][]") =
          ["system", "actor"].map
            fun x => ("filter[" ++ "type" ++ "][]", x)) ∧
      (encodeCatalogFilter
          [("type", FilterValue.list ["system", "actor"]),
           ("status", FilterValue.str "approved")]).filter
          (fun p => p.1 == "filter[" ++ "type" ++ "][]") =
        ["system", "actor"].map fun x => ("filter[" ++ "type" ++ "][]", x) :=
  filter_encoder_list_values
    [("type", FilterValue.list ["system", "actor"]),
     ("external", FilterValue.bool false)]
    [("type", FilterValue.list ["system", "actor"]),
     ("status", FilterValue.str "approved")]
    "type" ["system", "actor"]
    ⟨by decide, by decide⟩ (by simp)
    ⟨by decide, by decide⟩ (by simp)

theorem flatMap_entryPairs_filter_unique (fd : List (String × FilterValue))
    (q : String × String → Bool) (k : String) (v₀ : FilterValue)
    (hfd : ∀ p ∈ fd, wfEntry p = true) (hnd : (fd.map Prod.fst).Nodup)
    (hmem : (k, v₀) ∈ fd)
    (hne : ∀ k' v, wfEntry (k', v) = true → k' ≠ k →
      (entryPairs k' v).filter q = []) :
    (fd.flatMap fun p => entryPairs p.1 p.2).filter q =
      (entryPairs k v₀).filter q := by
  induction fd with
  | nil => simp at hmem
  | cons p rest ih =>
      obtain ⟨pk, pv⟩ := p
      rw [List.flatMap_cons, List.filter_append]
      have hnd' : (pk :: rest.map Prod.fst).Nodup := by simpa using hnd
      rcases List.mem_cons.mp hmem with heq | hrest
      · injection heq with hk1 hk2
        subst hk1
        subst hk2
        have hnil : (rest.flatMap fun p => entryPairs p.1 p.2).filter q = [] := by
          rw [filter_flatMap_comm]
          apply List.flatMap_eq_nil_iff.mpr
          intro r hr
          have hrne : r.1 ≠ k := fun h1 =>
            (List.nodup_cons.mp hnd').1 (h1 ▸ List.mem_map_of_mem Prod.fst hr)
          exact hne r.1 r.2 (hfd r (List.mem_cons_of_mem _ hr)) hrne
        rw [hnil, List.append_nil]
      · have hpne : pk ≠ k := fun h1 =>
          (List.nodup_cons.mp hnd').1 (h1 ▸ List.mem_map_of_mem Prod.fst hrest)
        rw [hne pk pv (hfd _ (List.mem_cons_self ..)) hpne, List.nil_append]
        exact ih (fun r hr => hfd r (List.mem_cons_of_mem _ hr))
          (List.nodup_cons.mp hnd').2 hrest

theorem entryPairs_filter_null_self (k : String) (hklab : k ≠ "labels") :
    (entryPairs k .null).filter (fun p => p.1 == "filter[" ++ k ++ "]") =
      [("filter[" ++ k ++ "]", "null")] := by
  have hbeq : (k == "labels") = false := by simpa using hklab
  simp [entryPairs, hbeq, FilterValue.typeofObject]

theorem entryPairs_filter_scalar_ne (k' : String) (v : FilterValue) (k : String)
    (hwf : wfEntry (k', v) = true) (hk : plainStr k = true) (hne : k' ≠ k) :
    (entryPairs k' v).filter (fun p => p.1 == "filter[" ++ k ++ "]") = [] := by
  rcases v with _ | _ | s | b | ys | es
  · simp [entryPairs]
  · simp only [wfEntry, Bool.and_eq_true, bne_iff_ne, ne_eq] at hwf
    have hlab : (k' == "labels") = false := by simpa using hwf.2
    have hb : (("filter[" ++ k' ++ "]" : String) ==
        "filter[" ++ k ++ "]") = false := by
      simpa using fun h => hne (scalar_key_inj h)
    simp [entryPairs, FilterValue.typeofObject, hlab, hb]
  · simp only [wfEntry, Bool.and_eq_true] at hwf
    have hb : (("filter[" ++ k' ++ "]" : String) ==
        "filter[" ++ k ++ "]") = false := by
      simpa using fun h => hne (scalar_key_inj h)
    simp [entryPairs, FilterValue.typeofObject, jsString, hb]
  · simp only [wfEntry, Bool.and_eq_true] at hwf
    have hb : (("filter[" ++ k' ++ "]" : String) ==
        "filter[" ++ k ++ "]") = false := by
      simpa using fun h => hne (scalar_key_inj h)
    simp [entryPairs, FilterValue.typeofObject, jsString, hb]
  · simp only [wfEntry, Bool.and_eq_true, bne_iff_ne, ne_eq] at hwf
    have hlab : (k' == "labels") = false := by simpa using hwf.2
    have hkey : ("filter[" ++ k' ++ "][]" == "filter[" ++ k ++ "]") = false := by
      simpa using fun hcontra => scalar_key_ne_list_key hk hwf.1 hcontra.symm
    simp [entryPairs, hlab, List.filter_map, Function.comp_def, hkey]
  · simp only [wfEntry, Bool.and_eq_true, beq_iff_eq, List.all_eq_true] at hwf
    rcases hwf with ⟨hplain', hlab, hsubs⟩
    simp only [entryPairs, FilterValue.typeofObject, hlab,
      if_neg (by simp : ¬(FilterValue.labelsMap es = FilterValue.undef))]
    simp only [beq_self_eq_true, Bool.true_and, if_true, List.filter_map,
      Function.comp_def]
    rw [List.filter_eq_nil_iff.mpr ?_]
    · simp
    · intro e he
      simpa using
        fun hcontra => scalar_key_ne_labels_key hk (hsubs e he) hcontra.symm

/-- C2: for every well-typed filter description with an explicit `null` under
key `k`, the Filter Encoder emits exactly one pair for `k`, with key
`filter[k]` and the literal string value `null`. -/
theorem filter_encoder_null_value (fd : List (String × FilterValue))
    (k : String) (hwf : wfFilter fd) (hmem : (k, FilterValue.null) ∈ fd) :
    ∃ out, encodeModelObjectsFilter fd = .ok out ∧
      out.filter (fun p => p.1 == "filter[" ++ k ++ "]") =
        [("filter[" ++ k ++ "]", "null")] := by
  have hfacts : plainStr k = true ∧ k ≠ "labels" := by
    simpa [wfEntry, Bool.and_eq_true] using hwf.2 _ hmem
  refine ⟨_, wfFilter_encode_ok fd hwf.2, ?_⟩
  rw [flatMap_entryPairs_filter_unique fd _ k FilterValue.null hwf.2 hwf.1 hmem
    (fun k' v hv hne => entryPairs_filter_scalar_ne k' v k hv hfacts.1 hne)]
  exact entryPairs_filter_null_self k hfacts.2

theorem filter_encoder_null_value_witness :
    ∃ out, encodeModelObjectsFilter
        [("parentId", FilterValue.null),
         ("external", FilterValue.bool false)] = .ok out ∧
      out.filter (fun p => p.1 == "filter[" ++ "parentId" ++ "]") =
        [("filter[" ++ "parentId" ++ "]", "null")] :=
  filter_encoder_null_value
    [("parentId", FilterValue.null), ("external", FilterValue.bool false)]
    "parentId" ⟨by decide, by decide⟩ (by simp)

theorem scalarOrUnset_noThrow (p : String × FilterValue)
    (h : scalarOrUnset p.2 = true) : entryNoThrow p := by
  obtain ⟨k, v⟩ := p
  rcases v with _ | _ | s | b | ys | es <;> simp_all [scalarOrUnset, entryNoThrow]

theorem flatMap_entryPairs_length_scalar (fd : List (String × FilterValue))
    (h : ∀ p ∈ fd, scalarOrUnset p.2 = true) :
    (fd.flatMap fun p => entryPairs p.1 p.2).length =
      (fd.filter fun p => p.2 != FilterValue.undef).length := by
  induction fd with
  | nil => rfl
  | cons p rest ih =>
      obtain ⟨pk, pv⟩ := p
      have hp := h _ (List.mem_cons_self ..)
      have hr := ih fun q hq => h q (List.mem_cons_of_mem _ hq)
      rcases pv with _ | _ | s | b | ys | es <;> simp_all [scalarOrUnset] <;>
        simp_all [entryPairs, FilterValue.typeofObject, List.filter_cons] <;>
        omega

/-- C3: for every filter description holding only scalar values (or the unset
sentinel), the Filter Encoder emits exactly one pair per key whose value is
not the unset sentinel; unset keys contribute no pair. -/
theorem filter_encoder_scalar_count (fd : List (String × FilterValue))
    (h : ∀ p ∈ fd, scalarOrUnset p.2 = true) :
    ∃ out, encodeModelObjectsFilter fd = .ok out ∧
      out.length = (fd.filter fun p => p.2 != FilterValue.undef).length :=
  ⟨_, encodeModelObjectsFilter_eq fd fun p hp => scalarOrUnset_noThrow p (h p hp),
    flatMap_entryPairs_length_scalar fd h⟩

theorem filter_encoder_scalar_count_witness :
    ∃ out, encodeModelObjectsFilter
        [("name", FilterValue.str "api"),
         ("external", FilterValue.bool false),
         ("parentId", FilterValue.undef)] = .ok out ∧
      out.length =
        ([("name", FilterValue.str "api"),
          ("external", FilterValue.bool false),
          ("parentId", FilterValue.undef)].filter
            fun p => p.2 != FilterValue.undef).length :=
  filter_encoder_scalar_count
    [("name", FilterValue.str "api"), ("external", FilterValue.bool false),
     ("parentId", FilterValue.undef)]
    (by decide)

/-- C4: with an absent or empty query string, the result shaper returns the
input collection unchanged — same elements, same order — whatever the fuzzy
scorer would do. -/
theorem result_shaper_empty_identity {α : Type}
    (fuse : String → List α → List α) (search : Option String) (xs : List α)
    (h : search = none ∨ search = some "") :
    shapeSearchResults fuse search xs = xs := by
  rcases h with h | h <;> subst h <;> simp [shapeSearchResults]

theorem result_shaper_empty_identity_witness :
    shapeSearchResults (fun _ _ => ([] : List Nat)) (some "") [1, 2, 3] =
      [1, 2, 3] :=
  result_shaper_empty_identity (fun _ _ => ([] : List Nat)) (some "") [1, 2, 3]
    (Or.inr rfl)

/-- C5 counterexample: with hierarchical enrichment requested, the
`getModelObject` tool does not issue its three calls in the claimed order
(object, full collection, teams) — the teams call comes second. -/
theorem getModelObject_call_order_counterexample :
    getModelObjectToolCalls "L" "M" "O" true ≠
      [RemoteCall.getModelObject "L" "M", RemoteCall.getModelObjects "L",
       RemoteCall.getTeams "O"] := by
  decide

/-- C5 (amended): with hierarchical enrichment the `getModelObject` tool issues
exactly 3 remote calls, in the order object, teams, full object collection;
without enrichment exactly 2, in the order object, teams. -/
theorem getModelObject_call_order (landscapeId modelObjectId orgId : String) :
    getModelObjectToolCalls landscapeId modelObjectId orgId true =
        [RemoteCall.getModelObject landscapeId modelObjectId,
         RemoteCall.getTeams orgId,
         RemoteCall.getModelObjects landscapeId] ∧
      getModelObjectToolCalls landscapeId modelObjectId orgId false =
        [RemoteCall.getModelObject landscapeId modelObjectId,
         RemoteCall.getTeams orgId] :=
  ⟨rfl, rfl⟩

/-- C6 (code defect, evaluated): `formatConnections` builds the
outgoing-connections section by mapping over the incoming-connection list
(src/src/format.ts line 236), so for an object with no incoming connection and
one outgoing connection whose target resolves in the fetched collection, the
rendered text contains the section header but no connection line, and no
referenced-model section. -/
theorem formatConnections_outgoing_uses_incoming :
    formatConnections
        { id := "x", name := "X", type := "system", status := "live" }
        []
        [{ id := "c1", name := "calls", originId := "x", targetId := "y" }]
        [{ id := "x", name := "X", type := "system", status := "live" },
         { id := "y", name := "Y", type := "store", status := "live" }] =
      "# X - Connections\n\n### Outgoing connections\n" := by
  rfl

/-- C7: on any non-2xx response the transport fails with the error message
carrying the status code, the status text and the raw body text (independent
of any JSON parser, which is never applied), and the `getModelObjects` tool
converts that failure into a single text block wrapping the same message. -/
theorem transport_non2xx_error {α : Type} (parse : String → α)
    (fuse : String → List ModelObject → List ModelObject)
    (search : Option String) (render : ModelObject → String)
    (r : HttpResponse) (h : responseOk r = false) :
    apiRequestResult parse r =
        .error ("IcePanel API error: " ++ toString r.status ++ " " ++
          r.statusText ++ " - " ++ r.body) ∧
      getModelObjectsToolHandler fuse search render
          (apiRequestResult (fun _ => ([] : List ModelObject)) r) =
        [{ type := "text",
           text := "Error: " ++ "IcePanel API error: " ++ toString r.status ++
             " " ++ r.statusText ++ " - " ++ r.body }] := by
  constructor
  · simp [apiRequestResult, h, icePanelErrorMessage]
  · simp only [apiRequestResult, h, icePanelErrorMessage,
      getModelObjectsToolHandler, runToolHandler, errorContent, Except.map,
      Bool.false_eq_true, if_false]
    simp only [String.append_assoc]

theorem transport_non2xx_error_witness :
    apiRequestResult (fun s => s)
        { status := 404, statusText := "Not Found", body := "missing" } =
        .error ("IcePanel API error: " ++ toString (404 : Nat) ++ " " ++
          "Not Found" ++ " - " ++ "missing") ∧
      getModelObjectsToolHandler (fun _ os => os) none (fun _ => "")
          (apiRequestResult (fun _ => ([] : List ModelObject))
            { status := 404, statusText := "Not Found", body := "missing" }) =
        [{ type := "text",
           text := "Error: " ++ "IcePanel API error: " ++
             toString (404 : Nat) ++ " " ++ "Not Found" ++ " - " ++ "missing" }] :=
  transport_non2xx_error (fun s => s) (fun _ os => os) none (fun _ => "")
    { status := 404, statusText := "Not Found", body := "missing" } rfl

/-- C8: every failure inside a tool handler body is returned as a single
human-readable `Error: ...` text block — never rethrown — and a successful
body's content passes through; shown for the embedded handlers
(`getLandscapes`, `getModelObjects`, `getModelObjectRelationships`), the last
at each of its four failure points. -/
theorem tool_handlers_return_errors_as_data (e payload : String)
    (fuse : String → List ModelObject → List ModelObject)
    (search : Option String) (render : ModelObject → String)
    (obj : ModelObject) (objs : List ModelObject)
    (outgoing incoming : List ModelConnection) :
    getLandscapesHandler (.error e) = [{ type := "text", text := "Error: " ++ e }] ∧
      getLandscapesHandler (.ok payload) = [{ type := "text", text := payload }] ∧
      getModelObjectsToolHandler fuse search render (.error e) =
        [{ type := "text", text := "Error: " ++ e }] ∧
      getModelObjectRelationshipsHandler (.error e) (.ok objs) (.ok outgoing)
          (.ok incoming) = [{ type := "text", text := "Error: " ++ e }] ∧
      getModelObjectRelationshipsHandler (.ok obj) (.error e) (.ok outgoing)
          (.ok incoming) = [{ type := "text", text := "Error: " ++ e }] ∧
      getModelObjectRelationshipsHandler (.ok obj) (.ok objs) (.error e)
          (.ok incoming) = [{ type := "text", text := "Error: " ++ e }] ∧
      getModelObjectRelationshipsHandler (.ok obj) (.ok objs) (.ok outgoing)
          (.error e) = [{ type := "text", text := "Error: " ++ e }] ∧
      getModelObjectRelationshipsHandler (.ok obj) (.ok objs) (.ok outgoing)
          (.ok incoming) =
        [{ type := "text",
           text := formatConnections obj incoming outgoing objs }] :=
  ⟨rfl, rfl, rfl, rfl, rfl, rfl, rfl, rfl⟩

theorem foldl_insert_eq (xs : List String) (acc : List String) :
    xs.foldl (fun acc x => if x ∈ acc then acc else acc ++ [x]) acc =
      acc ++ dedupFirstExcluding acc xs := by
  induction xs generalizing acc with
  | nil => simp [dedupFirstExcluding]
  | cons x xs ih =>
      rw [List.foldl_cons]
      by_cases hx : x ∈ acc
      · simp [hx, ih acc, dedupFirstExcluding]
      · simp [hx, ih (acc ++ [x]), dedupFirstExcluding, List.append_assoc]

theorem jsSetOrder_eq_dedupFirst (xs : List String) :
    jsSetOrder xs = dedupFirst xs := by
  simpa [jsSetOrder, dedupFirst] using foldl_insert_eq xs []

theorem dedupFirstExcluding_append (xs ys : List String) (seen : List String) :
    dedupFirstExcluding seen (xs ++ ys) =
      dedupFirstExcluding seen xs ++
        dedupFirstExcluding (seen ++ dedupFirstExcluding seen xs) ys := by
  induction xs generalizing seen with
  | nil => simp [dedupFirstExcluding]
  | cons x xs ih =>
      by_cases hx : x ∈ seen
      · simp [dedupFirstExcluding, hx, ih seen]
      · simp [dedupFirstExcluding, hx, ih (seen ++ [x]), List.append_assoc]

theorem mem_dedupFirstExcluding (a : String) (xs : List String)
    (seen : List String) :
    a ∈ dedupFirstExcluding seen xs ↔ a ∈ xs ∧ a ∉ seen := by
  induction xs generalizing seen with
  | nil => simp [dedupFirstExcluding]
  | cons x xs ih =>
      by_cases hx : x ∈ seen
      · simp only [dedupFirstExcluding, if_pos hx, ih seen, List.mem_cons]
        constructor
        · rintro ⟨h1, h2⟩
          exact ⟨Or.inr h1, h2⟩
        · rintro ⟨h1 | h1, h2⟩
          · exact absurd hx (h1 ▸ h2)
          · exact ⟨h1, h2⟩
      · simp only [dedupFirstExcluding, if_neg hx, List.mem_cons,
          ih (seen ++ [x]), List.mem_append, List.mem_singleton]
        constructor
        · rintro (rfl | ⟨h1, h2⟩)
          · exact ⟨Or.inl rfl, hx⟩
          · exact ⟨Or.inr h1, fun hseen => h2 (Or.inl hseen)⟩
        · rintro ⟨rfl | h1, h2⟩
          · exact Or.inl rfl
          · by_cases hax : a = x
            · exact Or.inl hax
            · exact Or.inr ⟨h1, fun hs =>
                hs.elim h2 fun hx2 => hx2.elim hax (List.not_mem_nil a)⟩

theorem mem_dedupFirst (a : String) (xs : List String) :
    a ∈ dedupFirst xs ↔ a ∈ xs := by
  simpa [dedupFirst] using mem_dedupFirstExcluding a xs []

theorem dedupFirstExcluding_filter (seen nw : List String)
    (u : List String) :
    dedupFirstExcluding (seen ++ u) nw =
      dedupFirstExcluding u (nw.filter fun x => !decide (x ∈ seen)) := by
  induction nw generalizing u with
  | nil => simp [dedupFirstExcluding]
  | cons x nw ih =>
      by_cases hxs : x ∈ seen
      · have hmem : x ∈ seen ++ u := List.mem_append.mpr (Or.inl hxs)
        simp [dedupFirstExcluding, List.filter_cons, hxs, hmem, ih u]
      · by_cases hxu : x ∈ u
        · have hmem : x ∈ seen ++ u := List.mem_append.mpr (Or.inr hxu)
          simp [dedupFirstExcluding, List.filter_cons, hxs, hxu, hmem, ih u]
        · have hmem : x ∉ seen ++ u := by
            simp [List.mem_append, hxs, hxu]
          have hassoc : (seen ++ u) ++ [x] = seen ++ (u ++ [x]) :=
            List.append_assoc ..
          simp [dedupFirstExcluding, List.filter_cons, hxs, hxu, hmem,
            hassoc, ih (u ++ [x])]

/-- C9: the id list `addObjectsToDiagram` sends in its diagram update equals
the spec's ordered set union of the existing and supplied id lists — every
existing id first, in original order, then each new id not already present, in
supplied order, duplicates removed keeping the first occurrence. -/
theorem addObjectsToDiagram_merge_is_ordered_union
    (currentObjectIds objectIds : List String) :
    addObjectsToDiagramMergedIds currentObjectIds objectIds =
      specMergedObjectIds currentObjectIds objectIds := by
  rw [addObjectsToDiagramMergedIds, jsSetOrder_eq_dedupFirst,
    specMergedObjectIds, dedupFirst, dedupFirstExcluding_append]
  congr 1
  have h1 : ([] : List String) ++ dedupFirstExcluding [] currentObjectIds =
      dedupFirst currentObjectIds ++ [] := by
    simp [dedupFirst]
  rw [h1, dedupFirstExcluding_filter, dedupFirst]
  congr 1
  apply List.filter_congr
  intro x _
  have hmem := mem_dedupFirstExcluding x currentObjectIds []
  simp only [List.not_mem_nil, not_false_iff, and_true] at hmem
  by_cases hx : x ∈ currentObjectIds <;> simp [hx, hmem]

/-- C10: for every `getModelObjects` invocation with a present, non-empty
`search` argument, the filter description handed to the encoder contains the
search string, so the encoded query pairs include `filter[search] = <search>`
(in addition to the client-side fuzzy filtering applied afterwards). -/
theorem getModelObjects_search_in_query (a : GetModelObjectsArgs) (s : String)
    (hs : a.search = some s) (_hne : s ≠ "") :
    ∃ out, encodeModelObjectsFilter (getModelObjectsToolFilter a) = .ok out ∧
      ("filter[search]", s) ∈ out := by
  have hnt : ∀ p ∈ getModelObjectsToolFilter a, entryNoThrow p := by
    intro p hp
    simp only [getModelObjectsToolFilter, List.mem_cons, List.not_mem_nil,
      or_false] at hp
    rcases hp with rfl | rfl | rfl | rfl | rfl | rfl | rfl | rfl | rfl <;>
      simp [entryNoThrow]
  refine ⟨_, encodeModelObjectsFilter_eq _ hnt, ?_⟩
  apply List.mem_flatMap.mpr
  refine ⟨("search", optStrFilterValue a.search), ?_, ?_⟩
  · simp [getModelObjectsToolFilter]
  · rw [hs]
    simp [entryPairs, optStrFilterValue, jsString, FilterValue.typeofObject]

theorem getModelObjects_search_in_query_witness :
    ∃ out, encodeModelObjectsFilter (getModelObjectsToolFilter
        { domainId := none, external := false, name := none, parentId := none,
          status := none, type := none, technologyId := none, teamId := none,
          search := some "payment" }) = .ok out ∧
      ("filter[search]", "payment") ∈ out :=
  getModelObjects_search_in_query
    { domainId := none, external := false, name := none, parentId := none,
      status := none, type := none, technologyId := none, teamId := none,
      search := some "payment" }
    "payment" rfl (by decide)

end IcePanel
